import Mathlib

/-!
# SublimeGtags (`gtags.py`) — verification of spec claims

A shallow embedding of the core of `gtags.py`: the tag-line regular
expression `TAGS_RE` and `TagFile._match`'s per-line parsing, the
symbol-only parsing of `open_files_symbols` / `current_include_path`
(`line.split(" ", 2)[0]` over `out.splitlines()`), the upward marker-file
walk `find_tags_root`, the include scanning `_find_includes` /
`_makefullpath` / `_find_all_includes`, and the keyword-argument dict
handling of `TagSubprocess.__init__` / `create`.

Strings are modelled as Lean `String` / `List Char`.  Python's `\s`
character class is modelled on its ASCII part (the tool output and the
source lines the claims concern are ASCII).  The filesystem, the external
`global` process and the editor state (`sublime.*`) are external
collaborators; they enter as explicit function parameters (`isfile`,
`runner`, the list of open files) or as a finite association list of file
contents.
-/

/-- ASCII part of Python's regex class `\s` and of `str.lstrip()`'s default
whitespace: space, tab, newline, carriage return, vertical tab, form feed. -/
def isPySpace (c : Char) : Bool :=
  c == ' ' || c == '\t' || c == '\n' || c == '\r' || c == '\x0b' || c == '\x0c'

/-- Negation of `isPySpace`, Python's `[^\s]`. -/
def notPySpace (c : Char) : Bool := !(isPySpace c)

/-- The named-group dictionary produced by a successful `TAGS_RE.search`
(`search_obj.groupdict()` in `TagFile._match`): all four groups are
strings, exactly as in the Python code. -/
structure TagMatch where
  symbol : String
  linenum : String
  path : String
  signature : String
deriving DecidableEq, Repr

/-- `TAGS_RE.search(l)` for
`TAGS_RE = (?P<symbol>[^\s]+)\s+(?P<linenum>[^\s]+)\s+(?P<path>[^\s]+)\s+(?P<signature>.*)`.

Python's leftmost-greedy semantics on a single line (no `\n` inside):
the first possible start of a match is the first non-whitespace
character; there the greedy `[^\s]+` groups take the full non-whitespace
runs, each `\s+` takes the full whitespace run, and `.*` takes the whole
remainder.  If matching fails there (fewer than three complete
non-whitespace runs each followed by whitespace), it fails at every later
start as well, since later starts only see a suffix with the same run
structure. -/
def TAGS_RE_search (s : String) : Option TagMatch :=
  let t := s.data.dropWhile isPySpace
  let sym := t.takeWhile notPySpace
  let r1 := t.dropWhile notPySpace
  let w1 := r1.takeWhile isPySpace
  let r2 := r1.dropWhile isPySpace
  let num := r2.takeWhile notPySpace
  let r3 := r2.dropWhile notPySpace
  let w2 := r3.takeWhile isPySpace
  let r4 := r3.dropWhile isPySpace
  let path := r4.takeWhile notPySpace
  let r5 := r4.dropWhile notPySpace
  let w3 := r5.takeWhile isPySpace
  let sig := r5.dropWhile isPySpace
  if !sym.isEmpty && !w1.isEmpty && !num.isEmpty && !w2.isEmpty
      && !path.isEmpty && !w3.isEmpty then
    some ⟨String.mk sym, String.mk num, String.mk path, String.mk sig⟩
  else
    none

/-- The parsing loop of `TagFile._match`: every line is offered to
`TAGS_RE.search` and the matches are collected in order; lines that do
not match are skipped silently. -/
def TagFile_match_parse (lines : List String) : List TagMatch :=
  lines.filterMap TAGS_RE_search

/-- Decimal value of an ASCII digit, `none` for any other character. -/
def digitVal (c : Char) : Option Nat :=
  if '0' ≤ c ∧ c ≤ '9' then some (c.toNat - 48) else none

/-- Reads a string of decimal digits as a natural number; `none` when the
string is empty or holds a non-digit. -/
def parseNatDigits (s : String) : Option Nat :=
  s.data.foldl
    (fun acc c =>
      match acc, digitVal c with
      | some n, some d => some (10 * n + d)
      | _, _ => none)
    (if s.data.isEmpty then none else some 0)

/-- The `line_number` field of the spec's TagRecord: the `linenum` group
read as an integer. -/
def tagLineNumber (m : TagMatch) : Option Nat := parseNatDigits m.linenum

/-- Modelled from the spec: re-serialization of a TagRecord into the
four-field line shape (the repository itself contains no serializer; the
spec's round-trip property needs the canonical single-space rendering of
the four fields). -/
def serializeTagMatch (m : TagMatch) : String :=
  m.symbol ++ " " ++ m.linenum ++ " " ++ m.path ++ " " ++ m.signature

/-- C2: For the input line "sym 10 path.c sig text", the tag-line parse
yields the record with symbol "sym", line number 10 (an integer ≥ 1, read
from the "10" group), path "path.c" and signature "sig text"; serializing
this record back into a line and re-parsing yields the same record. -/
theorem tag_line_roundtrip :
    TAGS_RE_search "sym 10 path.c sig text" =
      some ⟨"sym", "10", "path.c", "sig text"⟩ ∧
    tagLineNumber ⟨"sym", "10", "path.c", "sig text"⟩ = some 10 ∧ 1 ≤ 10 ∧
    TAGS_RE_search (serializeTagMatch ⟨"sym", "10", "path.c", "sig text"⟩) =
      some ⟨"sym", "10", "path.c", "sig text"⟩ := by
  refine ⟨by decide, by decide, by decide, by decide⟩

/-- C6: A line with fewer than four whitespace-separated fields — such as
"sym 10", which fails `TAGS_RE.search` — contributes no record, and in any
batch the records of the remaining lines are kept unchanged and in output
order (per-line partial-failure isolation). -/
theorem malformed_line_isolated :
    TAGS_RE_search "sym 10" = none ∧
    ∀ (pre post : List String) (l : String), TAGS_RE_search l = none →
      TagFile_match_parse (pre ++ l :: post) =
        TagFile_match_parse pre ++ TagFile_match_parse post := by
  refine ⟨by decide, ?_⟩
  intro pre post l hl
  simp [TagFile_match_parse, List.filterMap_append, List.filterMap_cons, hl]

/-- Witness for C6 at a concrete batch: the malformed line "sym 10" is
dropped while the well-formed lines around it are parsed. -/
theorem malformed_line_isolated_witness :
    TagFile_match_parse ["a 1 p.c s", "sym 10", "b 2 q.c t"] =
      TagFile_match_parse ["a 1 p.c s"] ++ TagFile_match_parse ["b 2 q.c t"] :=
  malformed_line_isolated.2 ["a 1 p.c s"] ["b 2 q.c t"] "sym 10" (by decide)

/-- Python `str.split(sep, maxsplit)` for a one-character separator,
scanning left to right: `acc` holds the current field reversed, `maxs`
the number of splits still allowed; once it reaches zero the rest of the
string (separators included) stays in the last field. -/
def pySplitCharAux (sep : Char) : List Char → Nat → List Char → List String
  | acc, _, [] => [String.mk acc.reverse]
  | acc, 0, c :: cs => [String.mk (acc.reverse ++ c :: cs)]
  | acc, m + 1, c :: cs =>
    if c == sep then
      String.mk acc.reverse :: pySplitCharAux sep [] m cs
    else
      pySplitCharAux sep (c :: acc) (m + 1) cs

/-- Python `s.split(sep, maxsplit)` with a one-character separator, as in
`line.split(" ", 2)`.  Empty fields are kept: `"".split(" ", 2) == [""]`,
`" a".split(" ", 2) == ["", "a"]`. -/
def pySplit (s : String) (sep : Char) (maxs : Nat) : List String :=
  pySplitCharAux sep [] maxs s.data

/-- Python `str.splitlines()` restricted to `\n` line breaks (the only
break occurring in the decoded output of the `global` subprocess): each
`\n` terminates a line, and a final fragment is a line only when
non-empty (`"a\n".splitlines() == ["a"]`, `"".splitlines() == []`,
`"\n".splitlines() == [""]`). -/
def pySplitlinesAux : List Char → List Char → List String
  | acc, [] => if acc.isEmpty then [] else [String.mk acc.reverse]
  | acc, '\n' :: cs => String.mk acc.reverse :: pySplitlinesAux [] cs
  | acc, c :: cs => pySplitlinesAux (c :: acc) cs

/-- Python `out.splitlines()` (see `pySplitlinesAux`). -/
def pySplitlines (s : String) : List String := pySplitlinesAux [] s.data

/-- `line.split(" ", 2)[0]`: the symbol-only parse applied to each output
line in `open_files_symbols` and `current_include_path`. -/
def symbolOnlyLine (line : String) : String :=
  (pySplit line ' ' 2).headD ""

/-- `TagFile.open_files_symbols`.  The editor supplies the list of open
file paths (`x.file_name()` over the window's views) and the filesystem
supplies `os.path.isfile`; the subprocess layer is a function from the
command string to the decoded stdout text.  Returns the parsed symbol
list together with the list of commands issued to the subprocess layer. -/
def open_files_symbols (isfile : String → Bool) (runner : String → String)
    (openFiles : List String) : List String × List String :=
  let files := " ".intercalate
    ((openFiles.filter isfile).map (fun x => "\"" ++ x ++ "\""))
  let cmd := "global -q -f " ++ files
  let out := runner cmd
  ((pySplitlines out).map symbolOnlyLine, [cmd])

/-- C1, as stated, is false: with an empty set of open file paths,
`open_files_symbols` still invokes the subprocess, with the command
`"global -q -f "` whose file-list argument is empty — the code has no
emptiness guard.  Here the tool returns empty output, the parsed result
is empty, yet the list of issued commands is not. -/
theorem open_files_symbols_empty_still_queries :
    (open_files_symbols (fun _ => false) (fun _ => "") []).1 = [] ∧
    (open_files_symbols (fun _ => false) (fun _ => "") []).2 =
      ["global -q -f "] ∧
    ["global -q -f "] ≠ ([] : List String) := by
  refine ⟨by decide, by decide, by decide⟩

/-- C1 amended: when the set of open file paths is empty,
`open_files_symbols` issues exactly one query, with the malformed
empty-file-list command "global -q -f "; its result is the symbol-only
parse of whatever that query returns — in particular the empty sequence
when the tool's output is empty. -/
theorem open_files_symbols_empty_amended (isfile : String → Bool)
    (runner : String → String) :
    (open_files_symbols isfile runner []).2 = ["global -q -f "] ∧
    (runner "global -q -f " = "" → (open_files_symbols isfile runner []).1 = []) := by
  have hdef : open_files_symbols isfile runner [] =
      ((pySplitlines (runner "global -q -f ")).map symbolOnlyLine,
        ["global -q -f "]) := rfl
  constructor
  · rw [hdef]
  · intro h
    rw [hdef, h]
    rfl

/-- Witness for the amended C1 at a concrete runner and filter. -/
theorem open_files_symbols_empty_amended_witness :
    (open_files_symbols (fun _ => true) (fun _ => "") []).2 =
      ["global -q -f "] ∧
    (open_files_symbols (fun _ => true) (fun _ => "") []).1 = [] :=
  ⟨(open_files_symbols_empty_amended (fun _ => true) (fun _ => "")).1,
   (open_files_symbols_empty_amended (fun _ => true) (fun _ => "")).2 rfl⟩

/-- Auxiliary for the amended C7: with at least one split still allowed,
the first field produced by `pySplitCharAux` is the accumulator followed
by the characters before the first separator. -/
theorem pySplitCharAux_head (sep : Char) :
    ∀ (cs acc : List Char) (m : Nat),
      (pySplitCharAux sep acc (m + 1) cs).headD "" =
        String.mk (acc.reverse ++ cs.takeWhile (fun c => !(c == sep))) := by
  intro cs
  induction cs with
  | nil => intro acc m; simp [pySplitCharAux]
  | cons c cs ih =>
    intro acc m
    by_cases h : c == sep
    · simp [pySplitCharAux, h]
    · have hstep : pySplitCharAux sep acc (m + 1) (c :: cs) =
          pySplitCharAux sep (c :: acc) (m + 1) cs := by
        simp [pySplitCharAux, h]
      rw [hstep, ih (c :: acc) m]
      simp [h, List.takeWhile_cons]

/-- C7, as stated, is false on two counts: the symbol-only parse
`line.split(" ", 2)[0]` splits on the single character `' '` — a tab does
not split, so the leading token is not returned for a tab-separated line
— and an empty output line contributes an empty string to the returned
sequence rather than nothing. -/
theorem symbol_only_empty_line_contributes :
    symbolOnlyLine "a\tb" = "a\tb" ∧ "a\tb" ≠ "a" ∧
    (open_files_symbols (fun _ => true) (fun _ => "\n") ["f.c"]).1 = [""] ∧
    [""] ≠ ([] : List String) := by
  refine ⟨by decide, by decide, by decide, by decide⟩

/-- C7 amended: for every output line, the symbol-only parse returns the
prefix of the line before the first space character `' '` (the whole line
when it has no space — in particular other whitespace such as a tab does
not split — and the empty string for an empty line or a line starting
with a space); every line of the split output, empty ones included,
contributes exactly one entry to the returned sequence. -/
theorem symbol_only_line_amended :
    ∀ (line out : String),
      symbolOnlyLine line =
        String.mk (line.data.takeWhile (fun c => !(c == ' '))) ∧
      ((pySplitlines out).map symbolOnlyLine).length =
        (pySplitlines out).length := by
  intro line out
  constructor
  · show (pySplitCharAux ' ' [] 2 line.data).headD "" = _
    rw [pySplitCharAux_head ' ' line.data [] 1]
    simp
  · exact List.length_map _ _

/-- The directory side of the filesystem as `find_tags_root` observes it:
`os.path.isdir` and the test `'GTAGS' in os.listdir(dir)`.  Directories
are normalized paths, modelled as their component lists from the
filesystem root, so `os.path.dirname` is `List.dropLast` and the dirname
of the root is the root itself. -/
structure DirFS where
  isdir : List String → Bool
  hasGTAGS : List String → Bool

/-- `find_tags_root(current, previous)`: fail when `current` is no
directory; fail when the parent equals the previously probed directory
(the filesystem-root stop); return `current` when the marker file GTAGS
is among its entries; otherwise recurse on the parent with `current` as
the new `previous`.  (`os.path.normpath` is the identity on the component
-list representation.)  The recursion terminates: the path shrinks at
every step, and at the filesystem root the parent-equals-previous test
fires on the next call. -/
def find_tags_root (fs : DirFS) (current : List String)
    (previous : Option (List String)) : Option (List String) :=
  if fs.isdir current = false then none
  else if h : (some current.dropLast : Option (List String)) = previous then none
  else if fs.hasGTAGS current then some current
  else find_tags_root fs current.dropLast (some current)
termination_by
  current.length + (if previous = some current.dropLast then 0 else 1)
decreasing_by
  simp_wf
  have h1 : (if previous = some current.dropLast then 0 else 1) = 1 := by
    rw [if_neg]
    intro hc
    exact h hc.symm
  rw [h1]
  by_cases hc : current = []
  · subst hc
    simp
  · have h2 : current.dropLast.length = current.length - 1 := by
      simp [List.length_dropLast]
    have h3 : 0 < current.length := List.length_pos.mpr hc
    split <;> omega

/-- The starting directory together with its ancestor chain up to the
filesystem root: the prefixes of its component list. -/
def ancestorChain (current : List String) : List (List String) :=
  (List.range (current.length + 1)).map (fun k => current.take k)

/-- Every prefix is on the ancestor chain. -/
theorem take_mem_ancestorChain (l : List String) (k : Nat) (hk : k ≤ l.length) :
    l.take k ∈ ancestorChain l := by
  simp only [ancestorChain, List.mem_map, List.mem_range]
  exact ⟨k, by omega, rfl⟩

/-- A directory is on its own ancestor chain. -/
theorem self_mem_ancestorChain (l : List String) : l ∈ ancestorChain l := by
  have h := take_mem_ancestorChain l l.length le_rfl
  simpa using h

/-- The ancestor chain of a directory extends that of its parent. -/
theorem ancestorChain_mono (xs : List String) (x : String) :
    ∀ d ∈ ancestorChain xs, d ∈ ancestorChain (xs ++ [x]) := by
  intro d hd
  simp only [ancestorChain, List.mem_map, List.mem_range] at hd ⊢
  obtain ⟨k, hk, rfl⟩ := hd
  refine ⟨k, by simp; omega, ?_⟩
  rw [List.take_append_of_le_length (by omega)]

/-- At the filesystem root with no marker, the walk stops with `none`:
either the root is no directory, or the parent-equals-previous test fires
now, or it fires on the single further recursive call. -/
theorem find_root_nil (fs : DirFS) (previous : Option (List String))
    (hg : fs.hasGTAGS [] = false) : find_tags_root fs [] previous = none := by
  rw [find_tags_root]
  simp only [List.dropLast_nil]
  by_cases hd : fs.isdir [] = false
  · rw [if_pos hd]
  · rw [if_neg hd]
    by_cases hp : (some ([] : List String) : Option (List String)) = previous
    · rw [dif_pos hp]
    · rw [dif_neg hp, if_neg (by simp [hg])]
      rw [find_tags_root]
      simp only [List.dropLast_nil]
      rw [if_neg hd]
      simp

/-- C4: when no directory on the ancestor chain of the starting directory
(the chain up to the filesystem root) has the marker file GTAGS among its
entries, `find_tags_root` returns `none` (NotFound), for every value of
the `previous` argument — the walk terminates at the filesystem root via
the parent-equals-previous check. -/
theorem find_root_no_marker_notfound (fs : DirFS) (current : List String)
    (hg : ∀ d ∈ ancestorChain current, fs.hasGTAGS d = false) :
    ∀ (previous : Option (List String)),
      find_tags_root fs current previous = none := by
  induction current using List.reverseRecOn with
  | nil =>
    intro previous
    exact find_root_nil fs previous (hg [] (self_mem_ancestorChain []))
  | append_singleton xs x ih =>
    intro previous
    rw [find_tags_root]
    by_cases hd : fs.isdir (xs ++ [x]) = false
    · rw [if_pos hd]
    · rw [if_neg hd]
      by_cases hp : (some (xs ++ [x]).dropLast : Option (List String)) = previous
      · rw [dif_pos hp]
      · rw [dif_neg hp,
          if_neg (by simp [hg (xs ++ [x]) (self_mem_ancestorChain _)])]
        rw [List.dropLast_concat]
        exact ih (fun d hd2 => hg d (ancestorChain_mono xs x d hd2)) _

/-- Witness for C4: a filesystem where everything is a directory and no
directory has the marker; starting at a depth-two directory the walk
returns NotFound. -/
theorem find_root_no_marker_notfound_witness :
    find_tags_root ⟨fun _ => true, fun _ => false⟩ ["a", "b"] none = none :=
  find_root_no_marker_notfound ⟨fun _ => true, fun _ => false⟩ ["a", "b"]
    (by decide) none

/-- A filesystem in which every path is a directory and every directory
holds the marker file GTAGS. -/
def allMarkersFS : DirFS := ⟨fun _ => true, fun _ => true⟩

/-- C5, as stated, is false: in `allMarkersFS` the root directory `[]`
holds the marker file, `["a"]` is an existing descendant directory of it,
yet `find_tags_root` started at `["a"]` returns `["a"]` — the walk stops
at the nearest directory with the marker, not at the ancestor `D` the
claim picked. -/
theorem find_root_nested_marker_counterexample :
    allMarkersFS.hasGTAGS [] = true ∧
    allMarkersFS.isdir ["a"] = true ∧
    find_tags_root allMarkersFS ["a"] none = some ["a"] ∧
    some ["a"] ≠ some ([] : List String) := by
  refine ⟨rfl, rfl, ?_, by decide⟩
  rw [find_tags_root]
  simp [allMarkersFS]

/-- C5 amended: `find_tags_root` started at the descendant `D ++ rest` of
`D` returns the nearest directory on the chain holding the marker; in
particular it returns `D` itself — at any nesting depth — provided every
directory on the chain from the start down to `D` is a directory and no
directory strictly below `D` on that chain holds the marker.  The
statement is generalized over the `previous` argument (any strictly
longer previously probed path, as in every reachable recursive call; the
initial call passes `none`). -/
theorem find_root_returns_marked_ancestor (fs : DirFS) (D : List String)
    (hD : fs.hasGTAGS D = true) :
    ∀ rest : List String,
      (∀ k ≤ rest.length, fs.isdir (D ++ rest.take k) = true) →
      (∀ k, 1 ≤ k → k ≤ rest.length → fs.hasGTAGS (D ++ rest.take k) = false) →
      ∀ previous : Option (List String),
        (∀ p, previous = some p → (D ++ rest).length < p.length) →
        find_tags_root fs (D ++ rest) previous = some D := by
  intro rest
  induction rest using List.reverseRecOn with
  | nil =>
    intro hdirs hno previous hprev
    rw [List.append_nil] at hprev ⊢
    have hdir : fs.isdir D = true := by simpa using hdirs 0 (by simp)
    rw [find_tags_root, if_neg (by simp [hdir])]
    have hp : ¬(some D.dropLast : Option (List String)) = previous := by
      intro hc
      have hlen := hprev _ hc.symm
      have hdl : D.dropLast.length = D.length - 1 := by simp
      omega
    rw [dif_neg hp, if_pos hD]
  | append_singleton rs r ih =>
    intro hdirs hno previous hprev
    have htake : (rs ++ [r]).take (rs.length + 1) = rs ++ [r] := by
      rw [show rs.length + 1 = (rs ++ [r]).length from by simp, List.take_length]
    have hdir : fs.isdir (D ++ (rs ++ [r])) = true := by
      have h1 := hdirs (rs.length + 1) (by simp)
      rwa [htake] at h1
    have hgfalse : fs.hasGTAGS (D ++ (rs ++ [r])) = false := by
      have h1 := hno (rs.length + 1) (by omega) (by simp)
      rwa [htake] at h1
    have hdrop : (D ++ (rs ++ [r])).dropLast = D ++ rs := by
      rw [← List.append_assoc, List.dropLast_concat]
    rw [find_tags_root, if_neg (by simp [hdir])]
    have hp : ¬(some (D ++ (rs ++ [r])).dropLast : Option (List String)) = previous := by
      intro hc
      have hlen := hprev _ hc.symm
      have hdl : (D ++ (rs ++ [r])).dropLast.length = (D ++ (rs ++ [r])).length - 1 := by
        simp
      omega
    rw [dif_neg hp, if_neg (by simp [hgfalse]), hdrop]
    apply ih
    · intro k hk
      have h1 := hdirs k (le_trans hk (by simp))
      rwa [List.take_append_of_le_length hk] at h1
    · intro k hk1 hk2
      have h1 := hno k hk1 (le_trans hk2 (by simp))
      rwa [List.take_append_of_le_length hk2] at h1
    · intro p hp2
      rw [Option.some_inj] at hp2
      subst hp2
      simp only [List.length_append, List.length_cons, List.length_nil]
      omega

/-- Witness for the amended C5: the marker sits in directory ["d"] only;
started at the depth-two descendant ["d","a","b"], the walk returns
["d"]. -/
theorem find_root_returns_marked_ancestor_witness :
    find_tags_root ⟨fun _ => true, fun l => decide (l = ["d"])⟩
      (["d"] ++ ["a", "b"]) none = some ["d"] := by
  apply find_root_returns_marked_ancestor
  · decide
  · intro k hk
    rfl
  · intro k hk1 hk2
    have hk3 : k ≤ 2 := by simpa using hk2
    interval_cases k <;> decide
  · intro p hp
    cases hp

/-- The file side of the filesystem as the include scanner observes it: a
finite association list from path to the file's lines (Python reads the
file in text mode line by line).  A path not in the list does not exist
(`os.path.isfile` is false). -/
abbrev FileFS := List (String × List String)

/-- Contents of a file, `none` when the path does not exist. -/
def fslookup (fs : FileFS) (p : String) : Option (List String) :=
  (fs.find? (fun e => e.1 == p)).map (fun e => e.2)

/-- `os.path.isfile` on the modelled filesystem. -/
def os_path_isfile (fs : FileFS) (p : String) : Bool := (fslookup fs p).isSome

/-- `re.search('^\s*#include\s+"(.*)"', line)` group 1, on a line already
known to start (after lstrip) with `#include`: skip leading whitespace,
require the literal `#include`, require at least one whitespace character
(`\s+`), require an opening double quote, and — because `(.*)` is greedy —
take everything up to the last double quote of the line; fail when any of
these is missing. -/
def extractQuotedInclude (l : List Char) : Option String :=
  let t := l.dropWhile isPySpace
  if ("#include".data).isPrefixOf t then
    let r := t.drop 8
    if (r.takeWhile isPySpace).isEmpty then none
    else
      match r.dropWhile isPySpace with
      | '"' :: r3 =>
        match r3.reverse.dropWhile (fun c => !(c == '"')) with
        | _ :: restRev => some (String.mk restRev.reverse)
        | [] => none
      | _ => none
  else none

/-- First-occurrence deduplication, the effect of accumulating into the
Python set `includes` and iterating it. -/
def dedupFAux : List String → List String → List String
  | _, [] => []
  | seen, x :: xs =>
    if seen.contains x then dedupFAux seen xs
    else x :: dedupFAux (x :: seen) xs

/-- See `dedupFAux`. -/
def dedupF (l : List String) : List String := dedupFAux [] l

/-- `TagFile._find_includes(filename)`: empty when the file does not
exist; otherwise, for every line that after `lstrip()` starts with
`#include`, the quoted include target extracted by the regex, collected
as a set. -/
def TagFile_find_includes (fs : FileFS) (filename : String) : List String :=
  match fslookup fs filename with
  | none => []
  | some lines =>
    dedupF (lines.filterMap (fun line =>
      let l := line.data.dropWhile isPySpace
      if ("#include".data).isPrefixOf l then extractQuotedInclude l else none))

/-- `TagFile._makefullpath(basepaths, filename)`: the first base path
under which `path + "/" + filename` exists, already joined; `none` when
no base path matches. -/
def TagFile_makefullpath (fs : FileFS) (basepaths : List String)
    (filename : String) : Option String :=
  (basepaths.find? (fun path => os_path_isfile fs (path ++ "/" ++ filename))).map
    (fun path => path ++ "/" ++ filename)

/-- The work-list loop of `TagFile._find_all_includes`: pop an element of
`todo`, add it to `done`, resolve each of its direct includes against the
base paths, and queue resolved paths not already queued or done.  The
Python loop runs until `todo` is empty; here a fuel argument bounds the
iterations, and `TagFile_find_all_includes` passes fuel that can never
run out: every iteration moves one element of the finite set
`{seed} ∪ {paths of fs}` into `done` and `done` never shrinks, so after
`fs.length + 1` iterations `todo` must be empty. -/
def findAllIncludesAux (fs : FileFS) (basepaths : List String) :
    Nat → List String → List String → List String
  | 0, _, done => done
  | _ + 1, [], done => done
  | n + 1, progress :: todo, done =>
    let done2 := progress :: done
    let todo2 := (TagFile_find_includes fs progress).foldl
      (fun td i =>
        match TagFile_makefullpath fs basepaths i with
        | some j => if td.contains j || done2.contains j then td else td ++ [j]
        | none => td) todo
    findAllIncludesAux fs basepaths n todo2 done2

/-- `TagFile._find_all_includes(basepaths, filename)`
(see `findAllIncludesAux` for the fuel bound). -/
def TagFile_find_all_includes (fs : FileFS) (basepaths : List String)
    (filename : String) : List String :=
  findAllIncludesAux fs basepaths (fs.length + 1) [filename] []

/-- An exhausted work list returns `done` at any fuel. -/
theorem findAllIncludesAux_nil (fs : FileFS) (bp : List String) (n : Nat)
    (done : List String) : findAllIncludesAux fs bp n [] done = done := by
  cases n <;> rfl

/-- The `done` set only grows along the work-list loop. -/
theorem mem_findAllIncludesAux_of_mem_done (fs : FileFS) (bp : List String) :
    ∀ (fuel : Nat) (todo done : List String) (x : String), x ∈ done →
      x ∈ findAllIncludesAux fs bp fuel todo done := by
  intro fuel
  induction fuel with
  | zero =>
    intro todo done x hx
    simpa [findAllIncludesAux] using hx
  | succ n ih =>
    intro todo done x hx
    cases todo with
    | nil => simpa [findAllIncludesAux] using hx
    | cons p td =>
      show x ∈ findAllIncludesAux fs bp n _ (p :: done)
      exact ih _ _ x (List.mem_cons_of_mem _ hx)

/-- Nonexistent files have no includes (the `os.path.isfile` guard). -/
theorem find_includes_of_not_isfile (fs : FileFS) (filename : String)
    (h : os_path_isfile fs filename = false) :
    TagFile_find_includes fs filename = [] := by
  unfold TagFile_find_includes
  unfold os_path_isfile at h
  cases hl : fslookup fs filename with
  | none => rfl
  | some lines => rw [hl] at h; simp at h

/-- C10: the file set returned by the include closure always contains the
seed file itself — the first loop iteration moves the seed from the work
set into the done set, and the done set only grows; when the seed does
not exist the closure is exactly the singleton of the seed (the seed has
no includes, so the work set is empty after the first iteration). -/
theorem closure_contains_seed (fs : FileFS) (basepaths : List String)
    (filename : String) :
    filename ∈ TagFile_find_all_includes fs basepaths filename ∧
    (os_path_isfile fs filename = false →
      TagFile_find_all_includes fs basepaths filename = [filename]) := by
  constructor
  · show filename ∈ findAllIncludesAux fs basepaths (fs.length + 1) [filename] []
    show filename ∈ findAllIncludesAux fs basepaths fs.length _ (filename :: [])
    exact mem_findAllIncludesAux_of_mem_done fs basepaths _ _ _ filename
      (List.mem_cons_self _ _)
  · intro h
    show findAllIncludesAux fs basepaths (fs.length + 1) [filename] [] = [filename]
    have hstep : findAllIncludesAux fs basepaths (fs.length + 1) [filename] [] =
        findAllIncludesAux fs basepaths fs.length
          ((TagFile_find_includes fs filename).foldl
            (fun td i =>
              match TagFile_makefullpath fs basepaths i with
              | some j => if td.contains j || (filename :: []).contains j then td
                          else td ++ [j]
              | none => td) [])
          (filename :: []) := rfl
    rw [hstep, find_includes_of_not_isfile fs filename h]
    exact findAllIncludesAux_nil fs basepaths _ _

/-- Witness for C10 on the empty filesystem: the seed "x" does not exist
and the closure is exactly ["x"]. -/
theorem closure_contains_seed_witness :
    "x" ∈ TagFile_find_all_includes [] [] "x" ∧
    TagFile_find_all_includes [] [] "x" = ["x"] :=
  ⟨(closure_contains_seed [] [] "x").1, (closure_contains_seed [] [] "x").2 rfl⟩

/-- A line without any double quote cannot yield a quoted include target:
the regex requires an opening and a closing `"`. -/
theorem extractQuotedInclude_none_of_no_quote (l : List Char)
    (hq : ('"' : Char) ∉ l) : extractQuotedInclude l = none := by
  unfold extractQuotedInclude
  by_cases hpre : (("#include".data).isPrefixOf (l.dropWhile isPySpace)) = true
  · rw [if_pos hpre]
    by_cases hws : (((l.dropWhile isPySpace).drop 8).takeWhile isPySpace).isEmpty = true
    · rw [if_pos hws]
    · rw [if_neg hws]
      split
      · rename_i r3 heq
        exfalso
        apply hq
        have h1 : ('"' : Char) ∈ ((l.dropWhile isPySpace).drop 8).dropWhile isPySpace := by
          rw [heq]; exact List.mem_cons_self _ _
        have h2 : ('"' : Char) ∈ (l.dropWhile isPySpace).drop 8 :=
          (List.dropWhile_sublist _).subset h1
        have h3 : ('"' : Char) ∈ l.dropWhile isPySpace :=
          (List.drop_sublist _ _).subset h2
        exact (List.dropWhile_sublist _).subset h3
      · rfl
  · rw [if_neg hpre]

/-- C8: only quoted include directives contribute include targets.  For
every existing file none of whose lines contains a double quote — in
particular a file whose include directives all use the angle-bracket form
— `_find_includes` returns the empty set; concretely, a file containing
only `#include <system.h>` yields no include targets. -/
theorem angle_includes_ignored :
    (∀ (fs : FileFS) (filename : String) (lines : List String),
      fslookup fs filename = some lines →
      (∀ l ∈ lines, ('"' : Char) ∉ l.data) →
      TagFile_find_includes fs filename = []) ∧
    TagFile_find_includes [("a.c", ["#include <system.h>"])] "a.c" = [] := by
  constructor
  · intro fs filename lines hl hq
    have hmap : lines.filterMap (fun line =>
        let l := line.data.dropWhile isPySpace
        if ("#include".data).isPrefixOf l then extractQuotedInclude l else none) = [] := by
      rw [List.filterMap_eq_nil_iff]
      intro line hline
      have hq1 : ('"' : Char) ∉ line.data.dropWhile isPySpace := fun hmem =>
        hq line hline ((List.dropWhile_sublist _).subset hmem)
      by_cases hpre : (("#include".data).isPrefixOf (line.data.dropWhile isPySpace)) = true
      · simpa [hpre] using extractQuotedInclude_none_of_no_quote _ hq1
      · simp [hpre]
    unfold TagFile_find_includes
    rw [hl]
    show dedupF (lines.filterMap (fun line =>
        let l := line.data.dropWhile isPySpace
        if ("#include".data).isPrefixOf l then extractQuotedInclude l else none)) = []
    rw [hmap]
    rfl
  · decide

/-- Witness for C8 at a concrete filesystem: a file holding one
angle-bracket include and one ordinary code line has no quoted include
targets. -/
theorem angle_includes_ignored_witness :
    TagFile_find_includes [("b.c", ["#include <x.h>", "int x;"])] "b.c" = [] :=
  angle_includes_ignored.1 [("b.c", ["#include <x.h>", "int x;"])] "b.c"
    ["#include <x.h>", "int x;"] (by decide) (by decide)

/-- The cyclic include example: under the search root "r", the file
`r/a.c` includes `"b.h"` and the file `r/b.h` includes `"a.c"`, both
resolvable under the root. -/
def cycleFS : FileFS :=
  [("r/a.c", ["#include \"b.h\""]), ("r/b.h", ["#include \"a.c\""])]

/-- First loop iteration on the cycle: `r/a.c` is popped and done, its
include resolves to `r/b.h`, which is queued. -/
theorem cycle_step1 (m : Nat) :
    findAllIncludesAux cycleFS ["r"] (m + 1) ["r/a.c"] [] =
      findAllIncludesAux cycleFS ["r"] m ["r/b.h"] ["r/a.c"] := by
  rfl

/-- Second loop iteration on the cycle: `r/b.h` is popped and done, its
include resolves back to `r/a.c`, which is already done and is not
re-queued — the work set is empty. -/
theorem cycle_step2 (m : Nat) :
    findAllIncludesAux cycleFS ["r"] (m + 1) ["r/b.h"] ["r/a.c"] =
      findAllIncludesAux cycleFS ["r"] m [] ["r/b.h", "r/a.c"] := by
  rfl

/-- C3: on the cyclic include graph (`a.c` includes "b.h", `b.h` includes
"a.c", both resolvable under the root "r"), the closure loop terminates —
after two iterations the work set is empty, so the result is the same at
every fuel of at least two, in particular at the fuel
`TagFile._find_all_includes` runs with — and the returned file set is
exactly {r/a.c, r/b.h}. -/
theorem cycle_closure_terminates (n : Nat) :
    findAllIncludesAux cycleFS ["r"] (n + 2) ["r/a.c"] [] =
      ["r/b.h", "r/a.c"] ∧
    TagFile_find_all_includes cycleFS ["r"] "r/a.c" = ["r/b.h", "r/a.c"] ∧
    (TagFile_find_all_includes cycleFS ["r"] "r/a.c").toFinset =
      {"r/a.c", "r/b.h"} := by
  have hrun : ∀ m : Nat, findAllIncludesAux cycleFS ["r"] (m + 2) ["r/a.c"] [] =
      ["r/b.h", "r/a.c"] := by
    intro m
    show findAllIncludesAux cycleFS ["r"] ((m + 1) + 1) ["r/a.c"] [] = _
    rw [cycle_step1 (m + 1), cycle_step2 m, findAllIncludesAux_nil]
  refine ⟨hrun n, ?_, ?_⟩
  · show findAllIncludesAux cycleFS ["r"] (cycleFS.length + 1) ["r/a.c"] [] = _
    exact hrun 1
  · show (findAllIncludesAux cycleFS ["r"] (cycleFS.length + 1)
      ["r/a.c"] []).toFinset = _
    rw [show cycleFS.length + 1 = 1 + 2 from rfl, hrun 1]
    decide

/-- A value stored under a keyword in the `kwargs` dictionaries of
`TagSubprocess`: the pipe flag `subprocess.PIPE`, a boolean (`shell`), an
environment mapping (`env`), or a working directory (`cwd`). -/
inductive KwVal where
  | pipe : KwVal
  | boolv : Bool → KwVal
  | envv : List (String × String) → KwVal
  | cwd : Option String → KwVal
deriving DecidableEq, Repr

/-- A Python dict of keyword arguments, as an association list in
insertion order (Python dicts preserve insertion order). -/
abbrev Kwargs := List (String × KwVal)

/-- Python `d[k] = v`: overwrite in place when the key exists, append
otherwise. -/
def dictSet (d : Kwargs) (k : String) (v : KwVal) : Kwargs :=
  if d.any (fun e => e.1 == k) then
    d.map (fun e => if e.1 == k then (k, v) else e)
  else d ++ [(k, v)]

/-- Python `d.update(upd)`: assign every key of `upd` into `d`. -/
def dictUpdate (d upd : Kwargs) : Kwargs :=
  upd.foldl (fun acc e => dictSet acc e.1 e.2) d

/-- `TagSubprocess.__init__(**kwargs)`: store `kwargs` as
`default_kwargs` and, on Windows, set `shell = True` in it. -/
def TagSubprocess_init (isWindows : Bool) (kwargs : Kwargs) : Kwargs :=
  if isWindows then dictSet kwargs "shell" (KwVal.boolv true) else kwargs

/-- `TagSubprocess.create(command, **kwargs)`, keyword-argument part:
`final_kwargs = self.default_kwargs` makes `final_kwargs` an alias of the
stored dict, so `final_kwargs.update(kwargs)` mutates
`self.default_kwargs` itself.  Returns the instance's `default_kwargs`
after the call together with the kwargs passed to `subprocess.Popen` —
the same dict. -/
def TagSubprocess_create (default_kwargs kwargs : Kwargs) : Kwargs × Kwargs :=
  let final := dictUpdate default_kwargs kwargs
  (final, final)

/-- `TagSubprocess.stdout(command)`: a query invocation; it calls
`create` with `stdout=subprocess.PIPE`.  Returns the instance's
`default_kwargs` after the call. -/
def TagSubprocess_stdout_state (default_kwargs : Kwargs) : Kwargs :=
  (TagSubprocess_create default_kwargs [("stdout", KwVal.pipe)]).1

/-- `TagSubprocess.call(command, cwd)`: the rebuild invocation; it calls
`create` with `stderr=subprocess.PIPE` and `cwd=self.__root`.  Returns
the instance's `default_kwargs` after the call. -/
def TagSubprocess_call_state (default_kwargs : Kwargs) (root : Option String) :
    Kwargs :=
  (TagSubprocess_create default_kwargs
    [("stderr", KwVal.pipe), ("cwd", KwVal.cwd root)]).1

/-- C9 is right about the intent and wrong about the code: a single query
(any `stdout` call, e.g. `start_with`) mutates the runner's construction
-time `default_kwargs` — `create` aliases the stored dict and
`dict.update` inserts the per-call `stdout` key into it; likewise
`rebuild` permanently inserts `stderr` and `cwd`.  Evaluated at the
construction state of `TagFile(None)` on a non-Windows platform
(`default_kwargs = {env: {PATH: ...}}`). -/
theorem default_kwargs_mutated_by_query :
    TagSubprocess_stdout_state
        (TagSubprocess_init false [("env", KwVal.envv [("PATH", "/usr/bin")])]) =
      [("env", KwVal.envv [("PATH", "/usr/bin")]), ("stdout", KwVal.pipe)] ∧
    TagSubprocess_stdout_state
        (TagSubprocess_init false [("env", KwVal.envv [("PATH", "/usr/bin")])]) ≠
      TagSubprocess_init false [("env", KwVal.envv [("PATH", "/usr/bin")])] ∧
    TagSubprocess_call_state
        (TagSubprocess_init false [("env", KwVal.envv [("PATH", "/usr/bin")])])
        (some "/repo") ≠
      TagSubprocess_init false [("env", KwVal.envv [("PATH", "/usr/bin")])] := by
  refine ⟨by decide, by decide, by decide⟩
